import Mathlib

/-!
# Verification of the comfyclaw provider/orchestrator core

Shallow embedding, in Lean 4, of the parts of `src/scripts/comfyclaw.py` and
`src/scripts/server.py` that the checked properties are about:

* the minimal WebSocket frame codec (`ws_send` / `ws_recv` in
  `network_connect`), with byte streams modelled as `List ℕ` and the socket
  reader modelled as a prefix-consuming function on such a list;
* the progress-relay message dispatch (`_track_comfyui_progress`);
* the job executor's prompt building, seed-sentinel resolution and MIME
  classification (`execute_job`);
* the pipeline orchestrator (`_run_pipeline` in `server.py`);
* the batch orchestrator (`handle_api_post` `/api/batch` run construction,
  `_run_batch`, and the batch-status update in `_process_outputs`).

Modelling conventions: Python byte strings are `List ℕ` (each element a byte
value); Python dicts are association lists with unique keys in insertion
order, assignment replacing an existing binding in place or appending a new
one; JSON scalar values are the inductive `JVal`; randomness
(`random.randint`) is an explicit generator `ℕ → ℤ` consumed sequentially,
the `i`-th draw being `gen i`; network I/O and file writes are not modelled
(submission outcomes and poll outcomes are supplied by an abstract backend
parameter); a Python function that raises out of the modelled region is
modelled as returning `none`.
-/

namespace Comfyclaw

/-! ## Byte-stream reader

`_recv_all(sock, n)` reads exactly `n` bytes or returns `None` on a closed
stream; it consumes whatever is available even when short. We model the
socket as the list of bytes it will deliver, and a read as splitting off a
prefix. -/

/-- Model of `_recv_all`: `some (first n bytes, rest)` when the stream holds
at least `n` bytes, otherwise `none` (the short read consumed everything). -/
def recv_all (n : ℕ) (s : List ℕ) : Option (List ℕ × List ℕ) :=
  if n ≤ s.length then some (s.take n, s.drop n) else none

/-- Big-endian integer value of a byte list, as computed by
`struct.unpack(">H", ...)` / `struct.unpack(">Q", ...)`. -/
def unpackBE (bs : List ℕ) : ℕ :=
  bs.foldl (fun acc b => acc * 256 + b) 0

/-- `struct.pack(">H", n)` for `n < 2^16`: two big-endian bytes. -/
def be16 (n : ℕ) : List ℕ := [n / 256 % 256, n % 256]

/-- `struct.pack(">Q", n)` for `n < 2^64`: eight big-endian bytes. -/
def be64 (n : ℕ) : List ℕ :=
  [n / 2 ^ 56 % 256, n / 2 ^ 48 % 256, n / 2 ^ 40 % 256, n / 2 ^ 32 % 256,
   n / 2 ^ 24 % 256, n / 2 ^ 16 % 256, n / 2 ^ 8 % 256, n % 256]

/-! ## Frame codec (`ws_send` / `ws_recv` in `comfyclaw.py`) -/

/-- XOR of a byte with one of the four mask-key bytes, cycling:
`b ^ mask[i % 4]`. -/
def maskByte (mask : List ℕ) (i b : ℕ) : ℕ := b ^^^ mask.getD (i % 4) 0

/-- The length field of `ws_send`: the 7-bit length with the client-mask
bit `0x80`, or the `126` / `127` marker followed by the 16-bit / 64-bit
big-endian extended length. -/
def ws_send_lenBytes (length : ℕ) : List ℕ :=
  if length < 126 then [0x80 ||| length]
  else if length < 65536 then (0x80 ||| 126) :: be16 length
  else (0x80 ||| 127) :: be64 length

/-- Frame layout produced by `ws_send` for a payload: FIN+text first byte
`0x81`, the masked length field, the 4-byte mask key, then the masked
payload.  (`ws_send` itself applies this to the UTF-8 bytes of a JSON
message and draws `mask` from `os.urandom(4)`; both are parameters here.) -/
def ws_send_frame (mask payload : List ℕ) : List ℕ :=
  0x81 :: ws_send_lenBytes payload.length ++ mask ++ payload.mapIdx (maskByte mask)

/-- One `ws_recv` call on a byte stream, with fuel for the ping
self-recursion.  Mirrors the source: read a 2-byte header; `opcode 0x8`
(close) yields `none`; `opcode 0x9` (ping) consumes the (7-bit) payload
length, answers with a pong (a write, not modelled) and recurses; otherwise
the `126`/`127` markers trigger a 16-bit / 64-bit extended length read, and
the payload is read and returned unchanged (the decoder never unmasks and
never looks at the fin bit).  A read failure where Python would raise
(`struct.unpack(None)`) is modelled as `none`. -/
def ws_recv_go : ℕ → List ℕ → Option (List ℕ)
  | 0, _ => none
  | _ + 1, [] => none
  | _ + 1, [_] => none
  | fuel + 1, b0 :: b1 :: rest =>
      let opcode := b0 &&& 0x0F
      let len0 := b1 &&& 0x7F
      if opcode = 0x8 then none
      else if opcode = 0x9 then
        ws_recv_go fuel
          (if len0 = 0 then rest
           else match recv_all len0 rest with
                | some (_, rest2) => rest2
                | none => [])
      else
        match
          (if len0 = 126 then
            (recv_all 2 rest).map fun pr => (unpackBE pr.1, pr.2)
          else if len0 = 127 then
            (recv_all 8 rest).map fun pr => (unpackBE pr.1, pr.2)
          else some (len0, rest)) with
        | none => none
        | some (length, rest2) =>
          if length = 0 then some []
          else
            match recv_all length rest2 with
            | none => none
            | some (payload, _) => some payload

/-- `ws_recv` on a byte stream: the fuel `s.length + 1` dominates the ping
recursion, which always consumes at least two bytes. -/
def ws_recv (s : List ℕ) : Option (List ℕ) :=
  ws_recv_go (s.length + 1) s

/-- An unmasked single frame carrying `ws_send`'s length-field selection —
the form this client actually decodes (frames sent BY the server, which are
unmasked; `ws_recv` never unmasks). -/
def server_frame (payload : List ℕ) : List ℕ :=
  0x81 ::
    (if payload.length < 126 then [payload.length]
     else if payload.length < 65536 then 126 :: be16 payload.length
     else 127 :: be64 payload.length) ++ payload

/-! ## JSON scalar values and Python dicts

JSON scalars relevant to the claims are integers and strings; every other
value (floats, booleans, lists, objects, null) is collapsed into `other`,
which no modelled comparison matches.  A dict is an association list with
unique keys; assignment replaces an existing binding in place or appends. -/

inductive JVal where
  | int (n : ℤ)
  | str (s : String)
  | other
deriving DecidableEq, Repr

/-- Python dict read `d.get(k)`: the value bound to the first (hence, with
unique keys, only) occurrence of the key. -/
def dget (k : String) : List (String × α) → Option α
  | [] => none
  | p :: t => if p.1 = k then some p.2 else dget k t

/-- Python dict assignment `d[k] = v`: replace the binding in place when the
key exists, else append (insertion order). -/
def dictSet (k : String) (v : α) (xs : List (String × α)) : List (String × α) :=
  if k ∈ xs.map Prod.fst then
    xs.map (fun p => if p.1 = k then (k, v) else p)
  else xs ++ [(k, v)]

/-! ## Progress relay (`_track_comfyui_progress`)

The relay loop decodes application messages; for each JSON message it reads
`msg.get("type")`, `msg.get("data", {}).get("prompt_id")`, and for progress
messages `data.get("value", 0)` / `data.get("max", 1)`.  A message is
modelled by the values of those lookups (`none` = key absent); numbers are
modelled as rationals.  The per-message behaviour is what the claims are
about: either the progress callback fires with a value (`report`), the
relay terminates (`stop` — an `executed` message; close/timeout are loop
conditions outside this dispatch), or the message is ignored (`skip`). -/

structure RelayMsg where
  mtype : Option String
  dataPromptId : Option String
  value : Option ℚ
  maxv : Option ℚ

inductive RelayAction where
  | report (r : ℚ)
  | stop
  | skip
deriving DecidableEq, Repr

/-- The type dispatch at the bottom of the relay loop body: `progress`
invokes the callback with `value / max` guarded by `max > 0` (else `0`);
`executed` breaks the loop; anything else falls through to the next
message. -/
def relayDispatch (m : RelayMsg) : RelayAction :=
  if m.mtype = some "progress" then
    let val := m.value.getD 0
    let mx := m.maxv.getD 1
    .report (if 0 < mx then val / mx else 0)
  else if m.mtype = some "executed" then .stop
  else .skip

/-- One application message through the relay loop body: the guard
`if msg_data.get("prompt_id") and msg_data["prompt_id"] != prompt_id:
continue` skips only messages carrying a truthy (present and non-empty)
`prompt_id` different from the tracked one; everything else reaches the
type dispatch. -/
def track_comfyui_progress_step (tracked : String) (m : RelayMsg) :
    RelayAction :=
  match m.dataPromptId with
  | some p => if p ≠ "" ∧ p ≠ tracked then .skip else relayDispatch m
  | none => relayDispatch m

/-! ## MIME classification in `execute_job`

`ext = os.path.splitext(filename)[1].lower()` followed by the if/elif
chain with default `"image/png"`.  `splitext` takes the suffix from the
last dot of the name, except that a name whose characters before that dot
are all dots has no extension (path separators do not occur in the
backend's filenames and are not modelled). -/

/-- `os.path.splitext(s)[1]`. -/
def splitext_ext (s : String) : String :=
  let r := s.data.reverse
  let after := r.takeWhile (fun c => c ≠ '.')
  match r.dropWhile (fun c => c ≠ '.') with
  | [] => ""
  | _ :: before =>
    if before.any (fun c => c ≠ '.') then String.mk ('.' :: after.reverse) else ""

/-- The extension → MIME chain in `execute_job` (`output_type = "image/png"`
then `if`/`elif` on the extension). -/
def mime_of_ext (ext : String) : String :=
  if ext = ".jpg" ∨ ext = ".jpeg" then "image/jpeg"
  else if ext = ".webp" then "image/webp"
  else if ext = ".mp4" then "video/mp4"
  else if ext = ".gif" then "image/gif"
  else "image/png"

/-- `str.lower()`, character-wise (ASCII, as in `Char.toLower`). -/
def str_lower (s : String) : String := String.mk (s.data.map Char.toLower)

/-- MIME type `execute_job` attaches to a downloaded output file. -/
def execute_job_output_type (filename : String) : String :=
  mime_of_ext (str_lower (splitext_ext filename))

/-! ## Job executor prompt building and seed resolution (`execute_job`)

A ComfyUI node is modelled by its `inputs` dict (the only part the claims
touch); a prompt graph is the dict from node id to node.  `execute_job`
deep-copies the workflow template, applies the job's `inputs` overrides
keyed `nodeId.field`, then walks every node and replaces a sentinel-valued
`seed` / `noise_seed` input with a fresh `random.randint(1, 2**32 - 1)`,
recording the draw in `resolved_seeds` under `f"{node_id}.{field}"`. -/

/-- `key.split(".", 1)` when the key contains a dot: the node id before the
first dot and the field after it; `none` when there is no dot
(`if "." not in key: continue`). -/
def split_key (k : String) : Option (String × String) :=
  let cs := k.data
  if '.' ∈ cs then
    some (String.mk (cs.takeWhile (fun c => c ≠ '.')),
          String.mk ((cs.dropWhile (fun c => c ≠ '.')).drop 1))
  else none

/-- The override-application loop shared by `execute_job`, `_run_batch` and
`_run_pipeline`: for each `nodeId.field ↦ val` entry whose node exists in
the prompt, set that node's input field. -/
def apply_inputs (inputs : List (String × JVal))
    (prompt : List (String × List (String × JVal))) :
    List (String × List (String × JVal)) :=
  inputs.foldl
    (fun pr kv =>
      match split_key kv.1 with
      | none => pr
      | some (nid, field) =>
        if nid ∈ pr.map Prod.fst then
          pr.map (fun p => if p.1 = nid then (p.1, dictSet field kv.2 p.2) else p)
        else pr)
    prompt

/-- The seed sentinels: `node_inputs[f] in (-1, 0, "-1", "0")`. -/
def isSentinelSeed : JVal → Bool
  | .int n => n == -1 || n == 0
  | .str s => s == "-1" || s == "0"
  | .other => false

/-- One `if f in node_inputs and node_inputs[f] in (-1, 0, "-1", "0")` block
of `execute_job`'s seed pass, on the state (node inputs, `resolved_seeds`
so far, next random-draw index). -/
def resolveOne (gen : ℕ → ℤ) (field nid : String)
    (st : List (String × JVal) × List (String × ℤ) × ℕ) :
    List (String × JVal) × List (String × ℤ) × ℕ :=
  let (ins, recs, c) := st
  match dget field ins with
  | some v =>
    if isSentinelSeed v then
      (dictSet field (.int (gen c)) ins, recs ++ [(nid ++ "." ++ field, gen c)], c + 1)
    else (ins, recs, c)
  | none => (ins, recs, c)

/-- The seed pass of `execute_job` over the node list, threading the
`resolved_seeds` record and the random-draw counter. -/
def resolve_seeds_go (gen : ℕ → ℤ) :
    ℕ → List (String × List (String × JVal)) →
    List (String × List (String × JVal)) × List (String × ℤ) × ℕ
  | c, [] => ([], [], c)
  | c, (nid, ins) :: rest =>
    let s1 := resolveOne gen "seed" nid (ins, [], c)
    let s2 := resolveOne gen "noise_seed" nid s1
    let s3 := resolve_seeds_go gen s2.2.2 rest
    ((nid, s2.1) :: s3.1, s2.2.1 ++ s3.2.1, s3.2.2)

/-- The seed pass of `execute_job`: the submitted prompt and the
`resolved_seeds` mapping. -/
def resolve_seeds (gen : ℕ → ℤ)
    (prompt : List (String × List (String × JVal))) :
    List (String × List (String × JVal)) × List (String × ℤ) :=
  ((resolve_seeds_go gen 0 prompt).1, (resolve_seeds_go gen 0 prompt).2.1)

/-- The key list a full seed pass may record, in pass order. -/
def seedKeyList : List (String × List (String × JVal)) → List String
  | [] => []
  | p :: rest =>
    (p.1 ++ "." ++ "seed") :: (p.1 ++ "." ++ "noise_seed") :: seedKeyList rest

/-! ## Pipeline orchestrator (`_run_pipeline` in `server.py`)

The config lookups (`workflows` by id, `servers` by `serverRef`), the
backend (`POST /prompt`, then polling `GET /history/{id}` up to 240 times)
and the output scan are modelled; the gallery writes and the actual HTTP
traffic are not.  The backend's behaviour for the step at index `i` is the
parameter `backend i`: how the submission ends, and — when it returns a
prompt id — whether polling reaches a completed entry (with its `outputs`
mapping) or exhausts the 240-attempt budget. -/

structure OutputEntry where
  filename : String
  subfolder : String
deriving DecidableEq, Repr

/-- One node's `outputs` entry in a history response: the media lists
`_extract_outputs` scans, in its fixed key order. -/
structure NodeOutput where
  images : List OutputEntry
  videos : List OutputEntry
  gifs : List OutputEntry
  audio : List OutputEntry
deriving DecidableEq, Repr

/-- `_extract_outputs`: walk the nodes, then the `images`/`videos`/`gifs`/
`audio` lists, keeping entries with a truthy filename (absent filenames are
modelled as `""`, the falsy string). -/
def extract_outputs (outputs : List (String × NodeOutput)) :
    List (String × OutputEntry) :=
  outputs.foldr
    (fun p acc =>
      (((p.2.images ++ p.2.videos ++ p.2.gifs ++ p.2.audio).filter
          fun e => e.filename ≠ "").map fun e => (p.1, e)) ++ acc)
    []

/-- The reference `_run_pipeline` builds from a step's first output item:
`f"{sub}/{filename}" if sub else filename` (a falsy `subfolder` is
modelled as `""`, matching `first.get("subfolder") or ""`). -/
def prev_ref (e : OutputEntry) : String :=
  if e.subfolder ≠ "" then e.subfolder ++ "/" ++ e.filename else e.filename

/-- The `prev_output` update after a completed step: it changes only when
the completed entry declared output items and the first has a truthy
filename. -/
def prev_output_update (prev : Option String)
    (outputs : List (String × NodeOutput)) : Option String :=
  match extract_outputs outputs with
  | [] => prev
  | first :: _ =>
    if first.2.filename ≠ "" then some (prev_ref first.2) else prev

/-- Truthiness of `prev_output` (`None` before any output, else a
string). -/
def prev_truthy : Option String → Bool
  | some s => s ≠ ""
  | none => false

/-- The `"__prev__"` substitution loop at the top of each step: an input
value equal to the sentinel is replaced by `prev_output` when the latter is
truthy. -/
def resolve_step_inputs (inputs : List (String × JVal))
    (prev : Option String) : List (String × JVal) :=
  inputs.map fun kv =>
    if kv.2 = .str "__prev__" ∧ prev_truthy prev then
      (kv.1, .str (prev.getD ""))
    else kv

structure Workflow where
  id : String
  serverRef : String
  prompt : List (String × List (String × JVal))

structure Config where
  workflows : List Workflow
  servers : List String

inductive SubmitRes where
  | fail
  | noId
  | ok (promptId : String)
deriving DecidableEq, Repr

inductive PollRes where
  | done (outputs : List (String × NodeOutput))
  | timeout
deriving DecidableEq, Repr

structure StepBeh where
  submit : SubmitRes
  poll : PollRes
deriving DecidableEq, Repr

structure PStep where
  workflowId : String
  inputs : List (String × JVal)
deriving DecidableEq, Repr

/-- One entry of `_run_pipeline`'s `completed` list (its `status` field is
what the final-status computation implicitly depends on; `output` is the
`outputPath` recorded for completed steps). -/
structure StepResult where
  stepIndex : ℕ
  status : String
  output : Option String
deriving DecidableEq, Repr

/-- The step loop of `_run_pipeline`: missing workflow, missing server,
submission failure, missing prompt id and poll-budget exhaustion each
append one terminal entry and stop; a completed step appends a `complete`
entry (whose recorded `outputPath` is the updated `prev_output`) and
continues.  The prompt actually submitted for a step is
`apply_inputs (resolve_step_inputs step.inputs prev) wf.prompt`. -/
def run_pipeline_go (cfg : Config) (backend : ℕ → StepBeh) :
    ℕ → Option String → List PStep → List StepResult
  | _, _, [] => []
  | idx, prev, step :: rest =>
    match cfg.workflows.find? fun w => w.id == step.workflowId with
    | none => [⟨idx + 1, "error", none⟩]
    | some wf =>
      if wf.serverRef ∈ cfg.servers then
        match (backend idx).submit with
        | .fail => [⟨idx + 1, "error", none⟩]
        | .noId => [⟨idx + 1, "error", none⟩]
        | .ok _pid =>
          match (backend idx).poll with
          | .done outs =>
            let prev2 := prev_output_update prev outs
            ⟨idx + 1, "complete", prev2⟩ ::
              run_pipeline_go cfg backend (idx + 1) prev2 rest
          | .timeout => [⟨idx + 1, "timeout", none⟩]
      else [⟨idx + 1, "error", none⟩]

/-- `_run_pipeline`: the final pipeline status and the `completed` list.
The status is `"complete" if len(completed) == len(steps) else "error"` —
a pure length comparison. -/
def run_pipeline (cfg : Config) (backend : ℕ → StepBeh)
    (steps : List PStep) : String × List StepResult :=
  let completed := run_pipeline_go cfg backend 0 none steps
  (if completed.length = steps.length then "complete" else "error", completed)

/-! ## Batch orchestrator

`handle_api_post` (`/api/batch`) builds the `runs` list: when `varySeed`
is requested and the workflow has seed-like fields, ONE
`random.randint(1, 2**31 - 1)` value is drawn per run and written to every
seed field of that run (`run_inputs[f"{node_id}.{field}"] = seed_value`
inside `for node_id, field in seed_fields`).  `_run_batch` then submits
each run; `_process_outputs` marks runs complete by prompt id and
recomputes the batch status. -/

structure BRun where
  index : ℕ
  promptId : Option String
  status : String
  error : Option String
  inputs : List (String × JVal)
deriving DecidableEq, Repr

/-- One run of the `/api/batch` construction loop, for variation index
`idx` (0-based; the stored `index` is `idx + 1`).  The random draw for run
`idx` is `gen idx`: the loop draws exactly once per iteration when the
condition holds, so the `idx`-th draw belongs to run `idx`. -/
def mk_run (gen : ℕ → ℤ) (inputs : List (String × JVal))
    (seedFields : List (String × String)) (varySeed : Bool) (idx : ℕ) :
    BRun :=
  if varySeed ∧ seedFields ≠ [] then
    { index := idx + 1, promptId := none, status := "queued", error := none,
      inputs := seedFields.foldl
        (fun acc nf => dictSet (nf.1 ++ "." ++ nf.2) (.int (gen idx)) acc)
        inputs }
  else
    { index := idx + 1, promptId := none, status := "queued", error := none,
      inputs := inputs }

/-- The `runs` list built by `/api/batch` for `variations` runs. -/
def build_runs (gen : ℕ → ℤ) (variations : ℕ)
    (inputs : List (String × JVal)) (seedFields : List (String × String))
    (varySeed : Bool) : List BRun :=
  (List.range variations).map (mk_run gen inputs seedFields varySeed)

/-- The claim's reading of the spec, written only for comparison with
`build_runs`: every seed FIELD draws its own fresh random value (field `j`
of run `idx` would use draw `idx * |seedFields| + j`), instead of one draw
per run shared across the fields. -/
def build_runs_per_field_draw (gen : ℕ → ℤ) (variations : ℕ)
    (inputs : List (String × JVal)) (seedFields : List (String × String))
    (varySeed : Bool) : List BRun :=
  (List.range variations).map fun idx =>
    if varySeed ∧ seedFields ≠ [] then
      { index := idx + 1, promptId := none, status := "queued",
        error := none,
        inputs := (seedFields.zip (List.range seedFields.length)).foldl
          (fun acc nfj => dictSet (nfj.1.1 ++ "." ++ nfj.1.2)
            (.int (gen (idx * seedFields.length + nfj.2))) acc)
          inputs }
    else
      { index := idx + 1, promptId := none, status := "queued",
        error := none, inputs := inputs }

/-- `_run_batch`'s handling of one run: an exception from the submission
sets `status = "error"` (leaving `promptId` untouched, hence `None`); a
response without `prompt_id` likewise; a prompt id sets `promptId` and
`status = "queued"`. -/
def run_batch_run (res : SubmitRes) (r : BRun) : BRun :=
  match res with
  | .fail => { r with status := "error", error := some "submit error" }
  | .noId => { r with status := "error", error := some "no prompt_id" }
  | .ok pid => { r with promptId := some pid, status := "queued" }

/-- `_run_batch`'s submission loop over the runs, in order; the run at
position `i` sees the backend's `i`-th submission outcome. -/
def run_batch_runs (backend : ℕ → SubmitRes) : ℕ → List BRun → List BRun
  | _, [] => []
  | i, r :: t => run_batch_run (backend i) r :: run_batch_runs backend (i + 1) t

structure Batch where
  batchId : String
  workflowId : String
  variations : ℕ
  varySeed : Bool
  status : String
  runs : List BRun

/-- `_run_batch` as a whole: submit every run, then set the batch status to
`"queued"` (its final line, under `BATCH_LOCK`). -/
def after_submit (backend : ℕ → SubmitRes) (b : Batch) : Batch :=
  { b with runs := run_batch_runs backend 0 b.runs, status := "queued" }

/-- The per-run effect of `_process_outputs`'s batch block for a completed
prompt id: a run whose `promptId` equals it becomes `complete`. -/
def ufun (pid : String) (r : BRun) : BRun :=
  if r.promptId = some pid then { r with status := "complete" } else r

/-- The batch block of `_process_outputs` (lines marking runs complete and
recomputing the batch status): mark matching runs, then set the batch
`complete` exactly when every run reports `complete`. -/
def update_batch (pid : String) (b : Batch) : Batch :=
  let runs2 := b.runs.map (ufun pid)
  if runs2.all fun r => decide (r.status = "complete") then
    { b with runs := runs2, status := "complete" }
  else { b with runs := runs2 }

/-- A sequence of observed completions, applied in order through the
polling path. -/
def apply_updates (us : List String) (b : Batch) : Batch :=
  us.foldl (fun b pid => update_batch pid b) b

/-- The two run-list invariants the batch argument rests on: the status is
`complete` exactly when all runs are, and error runs carry no prompt id. -/
def BatchInv (b : Batch) : Prop :=
  (b.status = "complete" ↔ ∀ r ∈ b.runs, r.status = "complete") ∧
  (∀ r ∈ b.runs, r.status = "error" → r.promptId = none)

lemma recv_all_exact (s t : List ℕ) (n : ℕ) (h : s.length = n) :
    recv_all n (s ++ t) = some (s, t) := by
  subst h
  simp [recv_all, List.take_left, List.drop_left]

lemma recv_all_full (s : List ℕ) : recv_all s.length s = some (s, []) := by
  simpa using recv_all_exact s [] s.length rfl

lemma and127_eq_self {n : ℕ} (h : n < 128) : n &&& 127 = n := by
  have h7 := Nat.and_pow_two_sub_one_eq_mod n 7
  norm_num at h7
  rw [h7, Nat.mod_eq_of_lt h]

lemma and15_eq_self {n : ℕ} (h : n < 16) : n &&& 15 = n := by
  have h4 := Nat.and_pow_two_sub_one_eq_mod n 4
  norm_num at h4
  rw [h4, Nat.mod_eq_of_lt h]

lemma unpackBE_be16 {n : ℕ} (h : n < 65536) : unpackBE (be16 n) = n := by
  simp [unpackBE, be16]; omega

lemma unpackBE_be64 {n : ℕ} (h : n < 2 ^ 64) : unpackBE (be64 n) = n := by
  simp [unpackBE, be64]; omega

/-- Decoding a single data frame whose 7-bit length field denotes the
payload length (no extended length): the payload comes back verbatim. -/
lemma ws_recv_go_short (fuel b0 b1 : ℕ) (p : List ℕ)
    (h8 : b0 &&& 15 ≠ 8) (h9 : b0 &&& 15 ≠ 9)
    (hb : b1 &&& 127 = p.length) (hlen : p.length < 126) :
    ws_recv_go (fuel + 1) (b0 :: b1 :: p) = some p := by
  rw [ws_recv_go]
  rw [hb, if_neg h8, if_neg h9,
    if_neg (show ¬p.length = 126 by omega), if_neg (show ¬p.length = 127 by omega)]
  dsimp only
  rcases Nat.eq_zero_or_pos p.length with h0 | h0
  · obtain rfl : p = [] := List.length_eq_zero.mp h0
    rfl
  · rw [if_neg (by omega), recv_all_full]

/-- Decoding a single data frame using the 16-bit extended length field. -/
lemma ws_recv_go_ext16 (fuel b0 b1 : ℕ) (p : List ℕ)
    (h8 : b0 &&& 15 ≠ 8) (h9 : b0 &&& 15 ≠ 9)
    (hb : b1 &&& 127 = 126) (hlen : p.length < 65536) :
    ws_recv_go (fuel + 1) (b0 :: b1 :: (be16 p.length ++ p)) = some p := by
  rw [ws_recv_go]
  rw [hb, if_neg h8, if_neg h9, if_pos rfl,
    recv_all_exact (be16 p.length) p 2 (by simp [be16])]
  rw [Option.map_some']
  dsimp only
  rw [unpackBE_be16 hlen]
  rcases Nat.eq_zero_or_pos p.length with h0 | h0
  · obtain rfl : p = [] := List.length_eq_zero.mp h0
    rw [if_pos h0]
  · rw [if_neg (by omega), recv_all_full]

/-- Decoding a single data frame using the 64-bit extended length field. -/
lemma ws_recv_go_ext64 (fuel b0 b1 : ℕ) (p : List ℕ)
    (h8 : b0 &&& 15 ≠ 8) (h9 : b0 &&& 15 ≠ 9)
    (hb : b1 &&& 127 = 127) (hlen : p.length < 2 ^ 64) :
    ws_recv_go (fuel + 1) (b0 :: b1 :: (be64 p.length ++ p)) = some p := by
  rw [ws_recv_go]
  rw [hb, if_neg h8, if_neg h9, if_neg (show ¬(127 : ℕ) = 126 by omega), if_pos rfl,
    recv_all_exact (be64 p.length) p 8 (by simp [be64])]
  rw [Option.map_some']
  dsimp only
  rw [unpackBE_be64 hlen]
  rcases Nat.eq_zero_or_pos p.length with h0 | h0
  · obtain rfl : p = [] := List.length_eq_zero.mp h0
    rw [if_pos h0]
  · rw [if_neg (by omega), recv_all_full]

/-- `ws_recv` decodes every unmasked single frame built with `ws_send`'s
length-field selection, for any payload length below `2^64`. -/
lemma ws_recv_server_frame (p : List ℕ) (h : p.length < 2 ^ 64) :
    ws_recv (server_frame p) = some p := by
  have h8 : (0x81 : ℕ) &&& 15 ≠ 8 := by decide
  have h9 : (0x81 : ℕ) &&& 15 ≠ 9 := by decide
  by_cases h1 : p.length < 126
  · rw [server_frame, if_pos h1]
    simp only [List.cons_append, List.singleton_append]
    exact ws_recv_go_short _ 0x81 p.length p h8 h9 (and127_eq_self (by omega)) h1
  · by_cases h2 : p.length < 65536
    · rw [server_frame, if_neg h1, if_pos h2]
      simp only [List.cons_append, List.singleton_append]
      exact ws_recv_go_ext16 _ 0x81 126 p h8 h9 (by decide) h2
    · rw [server_frame, if_neg h1, if_neg h2]
      simp only [List.cons_append, List.singleton_append]
      exact ws_recv_go_ext64 _ 0x81 127 p h8 h9 (by decide) h

example : execute_job_output_type "a.PNG" = "image/png" := by rfl

example : execute_job_output_type "a.JopG.webp" = "image/webp" := by rfl

example : execute_job_output_type "clip.mp4" = "video/mp4" := by rfl

example : splitext_ext "..png" = "" := by rfl

example : ws_recv (ws_send_frame [1, 2, 3, 4] [65]) = some [1] := by decide

example : ws_recv (server_frame [65, 66]) = some [65, 66] := by decide

example : ws_recv [0x01, 0x01, 65] = some [65] := by decide

example : (5 : ℕ) &&& 127 = 5 % 128 := Nat.and_pow_two_sub_one_eq_mod 5 7

example (n : ℕ) (h : n < 65536) : unpackBE (be16 n) = n := by
  simp [unpackBE, be16]; omega

example (n : ℕ) (h : n < 2 ^ 64) : unpackBE (be64 n) = n := by
  simp [unpackBE, be64]; omega

example :
    resolve_seeds (fun i => 7 + i)
      [("3", [("seed", .int (-1)), ("steps", .int 20)]),
       ("5", [("noise_seed", .str "0")])] =
    ([("3", [("seed", .int 7), ("steps", .int 20)]),
      ("5", [("noise_seed", .int 8)])],
     [("3.seed", 7), ("5.noise_seed", 8)]) := by decide

example :
    apply_inputs [("3.seed", .int 42), ("nodot", .int 1), ("9.x", .int 2)]
      [("3", [("seed", .int (-1))])] =
    [("3", [("seed", .int 42)])] := by decide

lemma dget_map_replace {k k' : String} (v : α) (l : List (String × α))
    (h : k' ≠ k) :
    dget k' (l.map fun p => if p.1 = k then (k, v) else p) = dget k' l := by
  induction l with
  | nil => simp [dget]
  | cons p t ih =>
    by_cases hp : p.1 = k
    · simpa [dget, hp, Ne.symm h] using ih
    · by_cases hp' : p.1 = k'
      · simp [dget, hp, hp', h]
      · simpa [dget, hp, hp'] using ih

lemma dget_append_single {k k' : String} (v : α) (l : List (String × α))
    (h : k' ≠ k) : dget k' (l ++ [(k, v)]) = dget k' l := by
  induction l with
  | nil => simp [dget, Ne.symm h]
  | cons p t ih =>
    by_cases hp : p.1 = k' <;> simp [dget, hp, ih]

lemma dget_dictSet_self (k : String) (v : α) (l : List (String × α)) :
    dget k (dictSet k v l) = some v := by
  rw [dictSet]
  split_ifs with h
  · induction l with
    | nil => simp at h
    | cons p t ih =>
      by_cases hp : p.1 = k
      · simp [dget, hp]
      · have h2 := h
        rw [List.map_cons] at h2
        have h' : k ∈ t.map Prod.fst := by
          rcases List.mem_cons.mp h2 with h1 | h1
          · exact absurd h1.symm hp
          · exact h1
        simpa [dget, hp] using ih h'
  · induction l with
    | nil => simp [dget]
    | cons p t ih =>
      have hp : ¬p.1 = k := by
        intro he
        exact h (by simp [he])
      have h' : k ∉ t.map Prod.fst := by
        intro he
        exact h (by simp [he])
      simpa [dget, hp] using ih h'

lemma dget_dictSet_other {k k' : String} (v : α) (l : List (String × α))
    (h : k' ≠ k) : dget k' (dictSet k v l) = dget k' l := by
  rw [dictSet]
  split_ifs with hmem
  · exact dget_map_replace v l h
  · exact dget_append_single v l h

lemma dget_of_mem_nodup {α : Type} {l : List (String × α)} {k : String}
    {v : α} (hnd : (l.map Prod.fst).Nodup) (h : (k, v) ∈ l) :
    dget k l = some v := by
  induction l with
  | nil => cases h
  | cons p t ih =>
    rcases List.mem_cons.mp h with h1 | h1
    · subst h1
      simp [dget]
    · have hk : k ∈ t.map Prod.fst := List.mem_map.mpr ⟨(k, v), h1, rfl⟩
      have hp : p.1 ≠ k := fun he => ((List.nodup_cons.mp hnd).1 (he ▸ hk))
      simpa [dget, hp] using ih (List.nodup_cons.mp hnd).2 h1

lemma str_append_right_cancel {a b c : String} (h : a ++ c = b ++ c) :
    a = b := by
  have hd : a.data ++ c.data = b.data ++ c.data := by
    simpa [String.data_append] using congrArg String.data h
  have hab : a.data = b.data := List.append_cancel_right hd
  exact congrArg String.mk hab

lemma rev_append_getElem (l1 l2 : List Char) (n : ℕ) (h : n < l2.length) :
    ((l1 ++ l2).reverse)[n]? = l2.reverse[n]? := by
  rw [List.reverse_append, List.getElem?_append_left (by simpa using h)]

lemma key_seed_ne_noise (a b : String) :
    a ++ "." ++ "seed" ≠ b ++ "." ++ "noise_seed" := by
  intro h
  have h4 := congrArg (fun s : String => s.data.reverse[4]?) h
  simp only [String.data_append, List.append_assoc] at h4
  rw [rev_append_getElem a.data (".".data ++ "seed".data) 4 (by decide),
    rev_append_getElem b.data (".".data ++ "noise_seed".data) 4 (by decide)]
    at h4
  exact absurd h4 (by decide)

lemma key_same_suffix_inj {a b f : String}
    (h : a ++ "." ++ f = b ++ "." ++ f) : a = b :=
  str_append_right_cancel (str_append_right_cancel h)

lemma seedKeyList_mem {prompt : List (String × List (String × JVal))}
    {k : String} (h : k ∈ seedKeyList prompt) :
    ∃ nid, nid ∈ prompt.map Prod.fst ∧
      (k = nid ++ "." ++ "seed" ∨ k = nid ++ "." ++ "noise_seed") := by
  induction prompt with
  | nil => cases h
  | cons p t ih =>
    rcases List.mem_cons.mp h with h1 | h1
    · exact ⟨p.1, by simp, Or.inl h1⟩
    · rcases List.mem_cons.mp h1 with h2 | h2
      · exact ⟨p.1, by simp, Or.inr h2⟩
      · obtain ⟨nid, hn, hk⟩ := ih h2
        exact ⟨nid, by simp [hn], hk⟩

lemma seedKeyList_nodup {prompt : List (String × List (String × JVal))}
    (hnd : (prompt.map Prod.fst).Nodup) : (seedKeyList prompt).Nodup := by
  induction prompt with
  | nil => exact List.nodup_nil
  | cons p t ih =>
    obtain ⟨hp, ht⟩ := List.nodup_cons.mp hnd
    refine List.nodup_cons.mpr ⟨?_, List.nodup_cons.mpr ⟨?_, ih ht⟩⟩
    · intro hmem
      rcases List.mem_cons.mp hmem with h1 | h1
      · exact key_seed_ne_noise p.1 p.1 h1
      · obtain ⟨nid, hn, hk⟩ := seedKeyList_mem h1
        rcases hk with hk | hk
        · exact hp (key_same_suffix_inj hk ▸ hn)
        · exact key_seed_ne_noise p.1 nid hk
    · intro hmem
      obtain ⟨nid, hn, hk⟩ := seedKeyList_mem hmem
      rcases hk with hk | hk
      · exact key_seed_ne_noise nid p.1 hk.symm
      · exact hp (key_same_suffix_inj hk ▸ hn)

lemma resolveOne_hit {gen : ℕ → ℤ} {f nid : String}
    {ins : List (String × JVal)} {recs : List (String × ℤ)} {c : ℕ} {v : JVal}
    (hv : dget f ins = some v) (hs : isSentinelSeed v) :
    resolveOne gen f nid (ins, recs, c) =
      (dictSet f (.int (gen c)) ins, recs ++ [(nid ++ "." ++ f, gen c)], c + 1) := by
  simp [resolveOne, hv, hs]

lemma resolveOne_skip_none {gen : ℕ → ℤ} {f nid : String}
    {ins : List (String × JVal)} {recs : List (String × ℤ)} {c : ℕ}
    (hv : dget f ins = none) :
    resolveOne gen f nid (ins, recs, c) = (ins, recs, c) := by
  simp [resolveOne, hv]

lemma resolveOne_skip_nonsent {gen : ℕ → ℤ} {f nid : String}
    {ins : List (String × JVal)} {recs : List (String × ℤ)} {c : ℕ} {v : JVal}
    (hv : dget f ins = some v) (hs : ¬isSentinelSeed v) :
    resolveOne gen f nid (ins, recs, c) = (ins, recs, c) := by
  simp [resolveOne, hv, hs]

lemma resolveOne_recs_sublist (gen : ℕ → ℤ) (f nid : String)
    (st : List (String × JVal) × List (String × ℤ) × ℕ) :
    ((resolveOne gen f nid st).2.1.map Prod.fst).Sublist
      (st.2.1.map Prod.fst ++ [nid ++ "." ++ f]) := by
  obtain ⟨ins, recs, c⟩ := st
  cases hv : dget f ins with
  | none =>
    rw [resolveOne_skip_none hv]
    exact List.sublist_append_left _ _
  | some v =>
    by_cases hs : isSentinelSeed v
    · rw [resolveOne_hit hv hs]
      simp
    · rw [resolveOne_skip_nonsent hv hs]
      exact List.sublist_append_left _ _

lemma resolveOne_recs_extend (gen : ℕ → ℤ) (f nid : String)
    (st : List (String × JVal) × List (String × ℤ) × ℕ) :
    ∃ t, (resolveOne gen f nid st).2.1 = st.2.1 ++ t := by
  obtain ⟨ins, recs, c⟩ := st
  cases hv : dget f ins with
  | none =>
    rw [resolveOne_skip_none hv]
    exact ⟨[], by simp⟩
  | some v =>
    by_cases hs : isSentinelSeed v
    · rw [resolveOne_hit hv hs]
      exact ⟨_, rfl⟩
    · rw [resolveOne_skip_nonsent hv hs]
      exact ⟨[], by simp⟩

lemma resolveOne_fst_dget_other (gen : ℕ → ℤ) {f f' : String} (nid : String)
    (st : List (String × JVal) × List (String × ℤ) × ℕ) (hff : f ≠ f') :
    dget f' (resolveOne gen f nid st).1 = dget f' st.1 := by
  obtain ⟨ins, recs, c⟩ := st
  cases hv : dget f ins with
  | none => rw [resolveOne_skip_none hv]
  | some v =>
    by_cases hs : isSentinelSeed v
    · rw [resolveOne_hit hv hs]
      exact dget_dictSet_other _ _ (Ne.symm hff)
    · rw [resolveOne_skip_nonsent hv hs]

lemma node_recs_sublist (gen : ℕ → ℤ) (nid : String)
    (ins : List (String × JVal)) (c : ℕ) :
    (((resolveOne gen "noise_seed" nid
        (resolveOne gen "seed" nid (ins, [], c))).2.1).map Prod.fst).Sublist
      [nid ++ "." ++ "seed", nid ++ "." ++ "noise_seed"] := by
  have h2 := resolveOne_recs_sublist gen "noise_seed" nid
    (resolveOne gen "seed" nid (ins, [], c))
  refine h2.trans ?_
  have h1 := resolveOne_recs_sublist gen "seed" nid (ins, [], c)
  have h3 := List.Sublist.append h1
    (List.Sublist.refl [nid ++ "." ++ "noise_seed"])
  simpa using h3

lemma resolve_seeds_go_keys (gen : ℕ → ℤ) (c : ℕ)
    (prompt : List (String × List (String × JVal))) :
    (resolve_seeds_go gen c prompt).1.map Prod.fst = prompt.map Prod.fst := by
  induction prompt generalizing c with
  | nil => simp [resolve_seeds_go]
  | cons p rest ih =>
    obtain ⟨nid, ins⟩ := p
    simp [resolve_seeds_go, ih]

lemma resolve_seeds_go_recs_sublist (gen : ℕ → ℤ) (c : ℕ)
    (prompt : List (String × List (String × JVal))) :
    ((resolve_seeds_go gen c prompt).2.1.map Prod.fst).Sublist
      (seedKeyList prompt) := by
  induction prompt generalizing c with
  | nil => simp [resolve_seeds_go, seedKeyList]
  | cons p rest ih =>
    obtain ⟨nid, ins⟩ := p
    rw [resolve_seeds_go, seedKeyList]
    dsimp only
    rw [List.map_append]
    exact List.Sublist.append (node_recs_sublist gen nid ins c) (ih _)

lemma resolve_seeds_go_mem (gen : ℕ → ℤ) (c : ℕ)
    (prompt : List (String × List (String × JVal))) {nid : String}
    {ins : List (String × JVal)} (hmem : (nid, ins) ∈ prompt) {f : String}
    (hf : f = "seed" ∨ f = "noise_seed") {v0 : JVal}
    (hv : dget f ins = some v0) (hs : isSentinelSeed v0) :
    ∃ j ins2, (nid, ins2) ∈ (resolve_seeds_go gen c prompt).1 ∧
      dget f ins2 = some (.int (gen j)) ∧
      (nid ++ "." ++ f, gen j) ∈ (resolve_seeds_go gen c prompt).2.1 := by
  induction prompt generalizing c with
  | nil => cases hmem
  | cons p rest ih =>
    rcases List.mem_cons.mp hmem with h1 | h1
    · obtain rfl : p = (nid, ins) := h1.symm
      rw [resolve_seeds_go]
      dsimp only
      rcases hf with hf | hf
      · subst hf
        rw [resolveOne_hit hv hs]
        have hv2 : dget "noise_seed" (dictSet "seed" (.int (gen c)) ins) =
            dget "noise_seed" ins := dget_dictSet_other _ _ (by decide)
        refine ⟨c, (resolveOne gen "noise_seed" nid
          (dictSet "seed" (.int (gen c)) ins,
           [] ++ [(nid ++ "." ++ "seed", gen c)], c + 1)).1,
          List.mem_cons_self _ _, ?_, ?_⟩
        · rw [resolveOne_fst_dget_other gen nid _ (by decide)]
          exact dget_dictSet_self _ _ _
        · obtain ⟨t, ht⟩ := resolveOne_recs_extend gen "noise_seed" nid
            (dictSet "seed" (.int (gen c)) ins,
             [] ++ [(nid ++ "." ++ "seed", gen c)], c + 1)
          rw [ht]
          exact List.mem_append_left _ (List.mem_append_left _ (by simp))
      · subst hf
        have hv1 : dget "noise_seed"
            (resolveOne gen "seed" nid (ins, [], c)).1 =
            some v0 := by
          rw [resolveOne_fst_dget_other gen nid _ (by decide)]
          exact hv
        have e2 := @resolveOne_hit gen "noise_seed" nid
          (resolveOne gen "seed" nid (ins, [], c)).1
          (resolveOne gen "seed" nid (ins, [], c)).2.1
          (resolveOne gen "seed" nid (ins, [], c)).2.2 v0 hv1 hs
        refine ⟨(resolveOne gen "seed" nid (ins, [], c)).2.2,
          (resolveOne gen "noise_seed" nid
            (resolveOne gen "seed" nid (ins, [], c))).1,
          List.mem_cons_self _ _, ?_, ?_⟩
        · show dget "noise_seed" (resolveOne gen "noise_seed" nid
            ((resolveOne gen "seed" nid (ins, [], c)).1,
             (resolveOne gen "seed" nid (ins, [], c)).2.1,
             (resolveOne gen "seed" nid (ins, [], c)).2.2)).1 = _
          rw [e2]
          exact dget_dictSet_self _ _ _
        · refine List.mem_append_left _ ?_
          show _ ∈ (resolveOne gen "noise_seed" nid
            ((resolveOne gen "seed" nid (ins, [], c)).1,
             (resolveOne gen "seed" nid (ins, [], c)).2.1,
             (resolveOne gen "seed" nid (ins, [], c)).2.2)).2.1
          rw [e2]
          exact List.mem_append_right _ (by simp)
    · obtain ⟨p1, p2⟩ := p
      rw [resolve_seeds_go]
      dsimp only
      obtain ⟨j, ins2, hm, hd, hr⟩ := ih _ h1
      exact ⟨j, ins2, List.mem_cons_of_mem _ hm, hd,
        List.mem_append_right _ hr⟩

/-- **C2**: in `execute_job`, every node-input field literally named `seed`
or `noise_seed` whose value is a sentinel (`-1`, `0`, `"-1"`, `"0"`) is
replaced before submission by a freshly drawn random integer (positive,
since every `random.randint(1, 2**32 - 1)` draw is ≥ 1, hypothesis `hgen`);
that integer is recorded in `resolved_seeds` under the key
`f"{node_id}.{field}"`; the submitted graph carries exactly the recorded
integer in place of the sentinel; and `resolved_seeds` has no duplicate
keys — each such field is resolved at most once and its recorded value is
never re-randomized. -/
theorem C2_seed_sentinel_resolution (gen : ℕ → ℤ) (hgen : ∀ i, 1 ≤ gen i)
    (prompt : List (String × List (String × JVal)))
    (hnd : (prompt.map Prod.fst).Nodup)
    (nid : String) (ins : List (String × JVal)) (hmem : (nid, ins) ∈ prompt)
    (f : String) (hf : f = "seed" ∨ f = "noise_seed")
    (v0 : JVal) (hv : dget f ins = some v0) (hs : isSentinelSeed v0) :
    (∃ v : ℤ, 1 ≤ v ∧
      (∃ ins2, dget nid (resolve_seeds gen prompt).1 = some ins2 ∧
        dget f ins2 = some (.int v)) ∧
      dget (nid ++ "." ++ f) (resolve_seeds gen prompt).2 = some v) ∧
    ((resolve_seeds gen prompt).2.map Prod.fst).Nodup := by
  have hrecnd : ((resolve_seeds gen prompt).2.map Prod.fst).Nodup :=
    List.Nodup.sublist (resolve_seeds_go_recs_sublist gen 0 prompt)
      (seedKeyList_nodup hnd)
  obtain ⟨j, ins2, hm, hd, hr⟩ :=
    resolve_seeds_go_mem gen 0 prompt hmem hf hv hs
  refine ⟨⟨gen j, hgen j, ⟨ins2, ?_, hd⟩, ?_⟩, hrecnd⟩
  · exact dget_of_mem_nodup
      (show ((resolve_seeds_go gen 0 prompt).1.map Prod.fst).Nodup by
        rw [resolve_seeds_go_keys]; exact hnd) hm
  · exact dget_of_mem_nodup hrecnd hr

/-- Witness for C2 at the spec's own test vector: a one-node graph whose
`seed` field is `-1`, with a generator drawing the constant 7. -/
theorem C2_witness :
    (∃ v : ℤ, 1 ≤ v ∧
      (∃ ins2, dget "3"
          (resolve_seeds (fun _ => 7)
            [("3", [("seed", JVal.int (-1))])]).1 = some ins2 ∧
        dget "seed" ins2 = some (.int v)) ∧
      dget ("3" ++ "." ++ "seed")
        (resolve_seeds (fun _ => 7)
          [("3", [("seed", JVal.int (-1))])]).2 = some v) ∧
    (((resolve_seeds (fun _ => 7)
        [("3", [("seed", JVal.int (-1))])]).2.map Prod.fst)).Nodup :=
  C2_seed_sentinel_resolution (fun _ => 7) (fun _ => by norm_num)
    [("3", [("seed", JVal.int (-1))])] (by simp)
    "3" [("seed", JVal.int (-1))] (by simp)
    "seed" (Or.inl rfl) (JVal.int (-1)) (by decide) (by decide)

/-- **C7**: in the progress relay, a message carrying a `prompt_id`
different from the tracked job's (and non-empty, i.e. truthy) never reaches
the callback; a message whose `prompt_id` equals the tracked one and whose
type is `progress` invokes the callback with `value / max`, except that a
`max` not greater than `0` yields `0` instead of a division. -/
theorem C7_relay_prompt_filter (tracked : String) (m : RelayMsg) :
    (∀ p, m.dataPromptId = some p → p ≠ "" → p ≠ tracked →
      track_comfyui_progress_step tracked m = .skip) ∧
    (m.dataPromptId = some tracked → m.mtype = some "progress" →
      track_comfyui_progress_step tracked m =
        .report (if 0 < m.maxv.getD 1
          then m.value.getD 0 / m.maxv.getD 1 else 0)) := by
  constructor
  · intro p hp hne hnt
    simp [track_comfyui_progress_step, hp, hne, hnt]
  · intro hp ht
    simp [track_comfyui_progress_step, hp, relayDispatch, ht]

/-- Witness for C7: a foreign `prompt_id` is skipped; a matching `progress`
message reports `3 / 4`. -/
theorem C7_witness :
    track_comfyui_progress_step "job1"
      ⟨some "progress", some "zzz", some 1, some 2⟩ = .skip ∧
    track_comfyui_progress_step "job1"
      ⟨some "progress", some "job1", some 3, some 4⟩ = .report (3 / 4) := by
  constructor
  · exact (C7_relay_prompt_filter "job1"
      ⟨some "progress", some "zzz", some 1, some 2⟩).1 "zzz" rfl
      (by decide) (by decide)
  · have h := (C7_relay_prompt_filter "job1"
      ⟨some "progress", some "job1", some 3, some 4⟩).2 rfl rfl
    simpa using h

/-- **C10** (implicit): a relay message whose `data` carries no `prompt_id`
(absent or empty string, both falsy in the guard) is NOT filtered out: a
`progress` message without a `prompt_id` invokes the callback as if it
belonged to the tracked job, and an `executed` message without a
`prompt_id` terminates the relay, whichever job produced the event. -/
theorem C10_relay_missing_prompt_id (tracked : String) (m : RelayMsg)
    (h : m.dataPromptId = none ∨ m.dataPromptId = some "") :
    (m.mtype = some "progress" →
      track_comfyui_progress_step tracked m =
        .report (if 0 < m.maxv.getD 1
          then m.value.getD 0 / m.maxv.getD 1 else 0)) ∧
    (m.mtype = some "executed" →
      track_comfyui_progress_step tracked m = .stop) := by
  constructor
  · intro ht
    rcases h with h | h <;>
      simp [track_comfyui_progress_step, h, relayDispatch, ht]
  · intro ht
    rcases h with h | h <;>
      simp [track_comfyui_progress_step, h, relayDispatch, ht]

/-- Witness for C10: an id-less `progress` message reports `1 / 2`; an
id-less `executed` message stops the relay, for a tracked job `"job1"`. -/
theorem C10_witness :
    track_comfyui_progress_step "job1" ⟨some "progress", none, some 1, some 2⟩ =
      .report (1 / 2) ∧
    track_comfyui_progress_step "job1" ⟨some "executed", some "", none, none⟩ =
      .stop := by
  constructor
  · have h := (C10_relay_missing_prompt_id "job1"
      ⟨some "progress", none, some 1, some 2⟩ (Or.inl rfl)).1 rfl
    simpa using h
  · exact (C10_relay_missing_prompt_id "job1"
      ⟨some "executed", some "", none, none⟩ (Or.inr rfl)).2 rfl

/-- **C4 counterexample**: `execute_job` classifies an unknown extension as
`image/png` (the chain's default), not `application/octet-stream` as the
claim states. -/
theorem C4_counterexample :
    execute_job_output_type "output.xyz" = "image/png" ∧
      execute_job_output_type "output.xyz" ≠ "application/octet-stream" := by
  constructor
  · rfl
  · intro h
    exact absurd h (by decide)

/-- **C4 (amended)**: `execute_job` classifies the result MIME type by the
lower-cased file extension, mapping `.jpg`/`.jpeg`, `.webp`, `.mp4`, `.gif`
to their respective types; `.png` and every unknown extension fall to the
default `image/png` (never `application/octet-stream`). -/
theorem C4_execute_job_mime (filename : String) :
    ((str_lower (splitext_ext filename) = ".jpg" ∨
        str_lower (splitext_ext filename) = ".jpeg") →
      execute_job_output_type filename = "image/jpeg") ∧
    (str_lower (splitext_ext filename) = ".webp" →
      execute_job_output_type filename = "image/webp") ∧
    (str_lower (splitext_ext filename) = ".mp4" →
      execute_job_output_type filename = "video/mp4") ∧
    (str_lower (splitext_ext filename) = ".gif" →
      execute_job_output_type filename = "image/gif") ∧
    (str_lower (splitext_ext filename) ∉
        ([".jpg", ".jpeg", ".webp", ".mp4", ".gif"] : List String) →
      execute_job_output_type filename = "image/png") ∧
    execute_job_output_type filename ≠ "application/octet-stream" := by
  rw [execute_job_output_type]
  refine ⟨fun h => ?_, fun h => ?_, fun h => ?_, fun h => ?_, fun h => ?_, ?_⟩
  · rcases h with h | h <;> rw [h] <;> rfl
  · rw [h]; rfl
  · rw [h]; rfl
  · rw [h]; rfl
  · rw [mime_of_ext]
    rw [if_neg, if_neg, if_neg, if_neg]
    · intro he
      exact h (by simp [he])
    · intro he
      exact h (by simp [he])
    · intro he
      exact h (by simp [he])
    · rintro (he | he) <;> exact h (by simp [he])
  · rw [mime_of_ext]
    split_ifs <;> decide

/-- Witness for C4: a `.jpg` file is `image/jpeg`, and an unknown `.xyz`
extension falls to the default. -/
theorem C4_witness :
    execute_job_output_type "photo.jpg" = "image/jpeg" ∧
    execute_job_output_type "render.blend" = "image/png" := by
  constructor
  · exact (C4_execute_job_mime "photo.jpg").1 (Or.inl (by rfl))
  · exact (C4_execute_job_mime "render.blend").2.2.2.2.1 (by decide)

/-- **C3 counterexample**: composing this decoder with this encoder does
NOT return the payload: `ws_recv` neither consumes the 4-byte mask key nor
unmasks, so for payload `[65]` and mask `[1, 2, 3, 4]` it returns the first
mask byte `[1]`, not `[65]`. -/
theorem C3_counterexample :
    ws_recv (ws_send_frame [1, 2, 3, 4] [65]) = some [1] ∧
      ws_recv (ws_send_frame [1, 2, 3, 4] [65]) ≠ some [65] := by
  constructor
  · decide
  · decide

/-- **C3 (amended)**: the round trip holds for the frames the decoder is
actually fed — unmasked single frames (server→client frames carry no mask;
`ws_recv` never unmasks): for every payload of length under 126 and every
payload of length over 65535 (below `2^64`), decoding a frame that carries
the encoder's 7-bit / 16-bit / 64-bit length-field selection followed by
the bare payload yields the payload.  The encoder's masked output is
decoded correctly only by a mask-aware peer, not by `ws_recv` (see the
counterexample). -/
theorem C3_frame_roundtrip (p : List ℕ)
    (h : p.length < 126 ∨ (65535 < p.length ∧ p.length < 2 ^ 64)) :
    ws_recv (server_frame p) = some p := by
  rcases h with h | ⟨h1, h2⟩
  · exact ws_recv_server_frame p (by omega)
  · exact ws_recv_server_frame p h2

/-- Witness for C3: a 3-byte payload (7-bit length) and a 70000-byte
payload (64-bit extended length) both round-trip. -/
theorem C3_witness :
    ws_recv (server_frame [10, 20, 30]) = some [10, 20, 30] ∧
    ws_recv (server_frame (List.replicate 70000 7)) =
      some (List.replicate 70000 7) :=
  ⟨C3_frame_roundtrip [10, 20, 30] (Or.inl (by decide)),
   C3_frame_roundtrip (List.replicate 70000 7)
     (Or.inr ⟨by rw [List.length_replicate]; norm_num,
              by rw [List.length_replicate]; norm_num⟩)⟩

/-- **C8 counterexample**: a frame whose fin bit is 0 (first byte `0x01`:
fin clear, text opcode) is parsed and its payload DELIVERED to the caller
— the session is not terminated and the frame is not rejected. -/
theorem C8_counterexample :
    ws_recv [0x01, 0x01, 65] = some [65] ∧ (0x01 : ℕ) >>> 7 = 0 := by
  decide

/-- **C8 (amended)**: `ws_recv` never reads the fin bit.  Any frame whose
opcode nibble is neither close (8) nor ping (9) — whatever its fin bit,
in particular every `fin=0` fragment — has its payload read and returned as
an ordinary application message; fragmentation is neither rejected nor
reassembled. -/
theorem C8_fin_ignored (fin : Bool) (opc : ℕ) (p : List ℕ)
    (hopc : opc < 16) (h8 : opc ≠ 8) (h9 : opc ≠ 9)
    (hlen : p.length < 126) :
    ws_recv (((if fin then 128 else 0) + opc) :: p.length :: p) = some p := by
  have hb0 : ((if fin then 128 else 0) + opc) &&& 15 = opc := by
    have hm := Nat.and_pow_two_sub_one_eq_mod ((if fin then 128 else 0) + opc) 4
    norm_num at hm
    rw [hm]
    cases fin <;> simp <;> omega
  exact ws_recv_go_short _ _ _ p (by rw [hb0]; exact h8) (by rw [hb0]; exact h9)
    (and127_eq_self (by omega)) hlen

/-- Witness for C8: a fin=0 binary frame (first byte 2) carrying `[7, 8]`
is delivered. -/
theorem C8_witness : ws_recv [2, 2, 7, 8] = some [7, 8] := by
  have h := C8_fin_ignored false 2 [7, 8] (by decide) (by decide) (by decide)
    (by decide)
  simpa using h

/-- **C1** (the divergence, evaluated): a pipeline whose LAST step fails is
nevertheless marked `complete`: `_run_pipeline` sets the final status by
`len(completed) == len(steps)`, and a failing step also appends a
`completed` entry, so a single-step pipeline whose only step has no
configured workflow ends with pipeline status `"complete"` while its one
step result reads `"error"`.  When the failure is not at the last step the
claim's behaviour does hold — the third conjunct shows a 2-step pipeline
failing at step 1: status `"error"` and step 2 never attempted (one
`completed` entry). -/
theorem C1_last_step_failure_marked_complete :
    (run_pipeline ⟨[], []⟩ (fun _ => ⟨.fail, .timeout⟩) [⟨"w1", []⟩]).1 =
      "complete" ∧
    (run_pipeline ⟨[], []⟩ (fun _ => ⟨.fail, .timeout⟩)
      [⟨"w1", []⟩]).2.map StepResult.status = ["error"] ∧
    (run_pipeline ⟨[], []⟩ (fun _ => ⟨.fail, .timeout⟩)
      [⟨"w1", []⟩, ⟨"w2", []⟩]).1 = "error" ∧
    (run_pipeline ⟨[], []⟩ (fun _ => ⟨.fail, .timeout⟩)
      [⟨"w1", []⟩, ⟨"w2", []⟩]).2.map StepResult.status = ["error"] := by
  refine ⟨by decide, by decide, by decide, by decide⟩

/-- **C6**: when the preceding step completed with a first extracted output
item carrying a (truthy) filename, `prev_output` becomes its reference —
`subfolder/filename` when the subfolder is non-empty, the bare filename
otherwise — and every input of the next step whose value is `"__prev__"`
resolves to exactly that reference. -/
theorem C6_prev_substitution
    (prev : Option String) (outs : List (String × NodeOutput))
    (nid : String) (e : OutputEntry) (tailItems : List (String × OutputEntry))
    (hext : extract_outputs outs = (nid, e) :: tailItems)
    (hfn : e.filename ≠ "")
    (inputs : List (String × JVal)) (k : String)
    (hk : (k, .str "__prev__") ∈ inputs) :
    prev_output_update prev outs = some (prev_ref e) ∧
    (k, .str (prev_ref e)) ∈
      resolve_step_inputs inputs (prev_output_update prev outs) ∧
    (e.subfolder ≠ "" → prev_ref e = e.subfolder ++ "/" ++ e.filename) ∧
    (e.subfolder = "" → prev_ref e = e.filename) := by
  have hupd : prev_output_update prev outs = some (prev_ref e) := by
    rw [prev_output_update, hext]
    dsimp only
    rw [if_pos hfn]
  have hne : prev_ref e ≠ "" := by
    rw [prev_ref]
    split_ifs with hsub
    · intro h
      have hd := congrArg String.data h
      simp [String.data_append] at hd
    · exact hfn
  refine ⟨hupd, ?_, ?_, ?_⟩
  · rw [hupd, resolve_step_inputs]
    refine List.mem_map.mpr ⟨(k, .str "__prev__"), hk, ?_⟩
    rw [if_pos]
    · rfl
    · exact ⟨rfl, by simp [prev_truthy, hne]⟩
  · intro h
    rw [prev_ref, if_pos h]
  · intro h
    simp [prev_ref, h]

/-- Witness for C6 at the spec's test vector: first output
`{subfolder: "out", filename: "a.png"}` makes a `"__prev__"` input resolve
to `"out/a.png"`. -/
theorem C6_witness :
    prev_output_update none [("9", ⟨[⟨"a.png", "out"⟩], [], [], []⟩)] =
      some "out/a.png" ∧
    ("5.image", JVal.str "out/a.png") ∈
      resolve_step_inputs [("5.image", JVal.str "__prev__")]
        (prev_output_update none [("9", ⟨[⟨"a.png", "out"⟩], [], [], []⟩)]) := by
  have h := C6_prev_substitution none [("9", ⟨[⟨"a.png", "out"⟩], [], [], []⟩)]
    "9" ⟨"a.png", "out"⟩ [] (by decide) (by decide)
    [("5.image", JVal.str "__prev__")] "5.image" (by simp)
  have he : prev_ref ⟨"a.png", "out"⟩ = "out/a.png" := by decide
  refine ⟨?_, ?_⟩
  · rw [h.1]
    decide
  · have h2 := h.2.1
    rw [he] at h2
    exact h2

/-! Support for C9: reading a key back after a fold of same-valued dict
writes. -/

lemma dget_foldl_dictSet_preserve {α β : Type} (g : β → String) (v : α)
    (l : List β) (init : List (String × α)) (k : String)
    (h : dget k init = some v) :
    dget k (l.foldl (fun acc b => dictSet (g b) v acc) init) = some v := by
  induction l generalizing init with
  | nil => exact h
  | cons b t ih =>
    apply ih
    by_cases hk : k = g b
    · subst hk
      exact dget_dictSet_self _ _ _
    · rw [dget_dictSet_other _ _ hk]
      exact h

lemma dget_foldl_dictSet_mem {α β : Type} (g : β → String) (v : α)
    (l : List β) (init : List (String × α)) (b0 : β) (hb : b0 ∈ l) :
    dget (g b0) (l.foldl (fun acc b => dictSet (g b) v acc) init) = some v := by
  induction l generalizing init with
  | nil => cases hb
  | cons b t ih =>
    rcases List.mem_cons.mp hb with h | h
    · subst h
      exact dget_foldl_dictSet_preserve g v t _ _ (dget_dictSet_self _ _ _)
    · exact ih _ h

/-- **C9 counterexample**: with two seed fields and `varySeed`, the code
assigns ONE draw per run to BOTH fields (both get 5 here), whereas
independently drawn per-field values (the claim, formalised as
`build_runs_per_field_draw`) would give 5 and 6 — the two constructions
differ at this input. -/
theorem C9_counterexample :
    (build_runs (fun i => 5 + (i : ℤ)) 1 []
        [("1", "seed"), ("2", "seed")] true).map
        (fun r => (dget "1.seed" r.inputs, dget "2.seed" r.inputs)) =
      [(some (.int 5), some (.int 5))] ∧
    (build_runs_per_field_draw (fun i => 5 + (i : ℤ)) 1 []
        [("1", "seed"), ("2", "seed")] true).map
        (fun r => (dget "1.seed" r.inputs, dget "2.seed" r.inputs)) =
      [(some (.int 5), some (.int 6))] ∧
    build_runs (fun i => 5 + (i : ℤ)) 1 []
        [("1", "seed"), ("2", "seed")] true ≠
      build_runs_per_field_draw (fun i => 5 + (i : ℤ)) 1 []
        [("1", "seed"), ("2", "seed")] true := by
  refine ⟨by decide, by decide, by decide⟩

/-- **C9 (amended)**: with `varySeed`, each run draws ONE fresh random
value — run `idx` uses the `idx`-th draw, so distinct runs use distinct
draws — and writes that same value into every seed field of the run,
whether or not the field's current value is a sentinel. -/
theorem C9_vary_seed (gen : ℕ → ℤ) (variations : ℕ)
    (inputs : List (String × JVal)) (seedFields : List (String × String))
    (idx : ℕ) (nid f : String) (hmem : (nid, f) ∈ seedFields)
    (h : idx < (build_runs gen variations inputs seedFields true).length) :
    dget (nid ++ "." ++ f)
        ((build_runs gen variations inputs seedFields true).get
          ⟨idx, h⟩).inputs = some (.int (gen idx)) ∧
    ((build_runs gen variations inputs seedFields true).get
      ⟨idx, h⟩).index = idx + 1 := by
  have hget : (build_runs gen variations inputs seedFields true).get
      ⟨idx, h⟩ = mk_run gen inputs seedFields true idx := by
    simp [build_runs]
  rw [hget, mk_run, if_pos ⟨rfl, List.ne_nil_of_mem hmem⟩]
  constructor
  · exact dget_foldl_dictSet_mem (fun nf => nf.1 ++ "." ++ nf.2)
      (.int (gen idx)) seedFields inputs (nid, f) hmem
  · rfl

/-- Witness for C9: run index 1 of a 2-variation batch with one seed field
gets the draw `gen 1 = 6` and run number 2. -/
theorem C9_witness :
    dget ("1" ++ "." ++ "seed")
        ((build_runs (fun i => 5 + (i : ℤ)) 2 [] [("1", "seed")] true).get
          ⟨1, by decide⟩).inputs = some (.int 6) ∧
    ((build_runs (fun i => 5 + (i : ℤ)) 2 [] [("1", "seed")] true).get
      ⟨1, by decide⟩).index = 2 := by
  have h := C9_vary_seed (fun i => 5 + (i : ℤ)) 2 [] [("1", "seed")] 1
    "1" "seed" (by simp) (by decide)
  simpa using h

/-! Support for C5: the batch invariant through submission and updates. -/

lemma update_batch_runs (pid : String) (b : Batch) :
    (update_batch pid b).runs = b.runs.map (ufun pid) := by
  rw [update_batch]
  split_ifs <;> rfl

lemma ufun_promptId (pid : String) (r : BRun) :
    (ufun pid r).promptId = r.promptId := by
  rw [ufun]
  split_ifs <;> rfl

lemma ufun_of_none {pid : String} {r : BRun} (h : r.promptId = none) :
    ufun pid r = r := by
  rw [ufun, if_neg]
  simp [h]

lemma ufun_complete {pid : String} {r : BRun} (h : r.status = "complete") :
    (ufun pid r).status = "complete" := by
  rw [ufun]
  split_ifs <;> simp [h]

lemma ufun_error {pid : String} {r : BRun}
    (h : (ufun pid r).status = "error") : r.status = "error" := by
  rw [ufun] at h
  split_ifs at h with hp
  · exact absurd (show ("complete" : String) = "error" from h) (by decide)
  · exact h

lemma update_batch_BatchInv {pid : String} {b : Batch} (h : BatchInv b) :
    BatchInv (update_batch pid b) := by
  obtain ⟨h1, h2⟩ := h
  constructor
  · rw [update_batch]
    split_ifs with hall
    · constructor
      · intro _ r hr
        have hx := List.all_eq_true.mp hall r hr
        simpa using hx
      · intro _
        rfl
    · constructor
      · intro hbs
        exfalso
        apply hall
        refine List.all_eq_true.mpr ?_
        intro r hr
        obtain ⟨r0, hr0, rfl⟩ := List.mem_map.mp hr
        simpa using ufun_complete (h1.mp hbs r0 hr0)
      · intro hallc
        exfalso
        apply hall
        refine List.all_eq_true.mpr ?_
        intro r hr
        simpa using hallc r hr
  · intro r hr hre
    rw [update_batch_runs] at hr
    obtain ⟨r0, hr0, rfl⟩ := List.mem_map.mp hr
    rw [ufun_promptId]
    exact h2 r0 hr0 (ufun_error hre)

lemma apply_updates_BatchInv (us : List String) {b : Batch}
    (h : BatchInv b) : BatchInv (apply_updates us b) := by
  induction us generalizing b with
  | nil => exact h
  | cons u t ih => exact ih (update_batch_BatchInv h)

lemma apply_updates_error (us : List String) {b : Batch} (h : BatchInv b)
    (he : ∃ r ∈ b.runs, r.status = "error") :
    ∃ r ∈ (apply_updates us b).runs, r.status = "error" := by
  induction us generalizing b with
  | nil => exact he
  | cons u t ih =>
    refine ih (update_batch_BatchInv h) ?_
    obtain ⟨r, hr, hre⟩ := he
    have hp : r.promptId = none := h.2 r hr hre
    refine ⟨r, ?_, hre⟩
    rw [update_batch_runs]
    exact List.mem_map.mpr ⟨r, hr, ufun_of_none hp⟩

lemma run_batch_runs_mem (backend : ℕ → SubmitRes) (i : ℕ)
    (rs : List BRun)
    (h0 : ∀ r ∈ rs, r.status = "queued" ∧ r.promptId = none) :
    ∀ r' ∈ run_batch_runs backend i rs,
      (r'.status = "queued" ∨ r'.status = "error") ∧
      (r'.status = "error" → r'.promptId = none) := by
  induction rs generalizing i with
  | nil =>
    intro r' hr'
    cases hr'
  | cons r t ih =>
    intro r' hr'
    rw [run_batch_runs] at hr'
    rcases List.mem_cons.mp hr' with hh | hh
    · subst hh
      obtain ⟨hs, hp⟩ := h0 r (by simp)
      cases hres : backend i with
      | fail => simp [run_batch_run, hres, hp]
      | noId => simp [run_batch_run, hres, hp]
      | ok pid => simp [run_batch_run, hres, hs]
    · exact ih (i + 1) (fun x hx => h0 x (List.mem_cons_of_mem _ hx)) r' hh

lemma after_submit_BatchInv (backend : ℕ → SubmitRes)
    (bid wid : String) (nvar : ℕ) (vs : Bool) (rs0 : List BRun)
    (h0 : ∀ r ∈ rs0, r.status = "queued" ∧ r.promptId = none)
    (hne : rs0 ≠ []) :
    BatchInv (after_submit backend ⟨bid, wid, nvar, vs, "running", rs0⟩) := by
  constructor
  · rw [after_submit]
    dsimp only
    constructor
    · intro hq
      exact absurd hq (by decide)
    · intro hall
      exfalso
      obtain ⟨r, rs, rfl⟩ := List.exists_cons_of_ne_nil hne
      have hmem : run_batch_run (backend 0) r ∈
          run_batch_runs backend 0 (r :: rs) := by
        rw [run_batch_runs]
        simp
      have hc := hall _ hmem
      have hq := run_batch_runs_mem backend 0 (r :: rs) h0 _ hmem
      rcases hq.1 with hs | hs <;> rw [hc] at hs <;> exact absurd hs (by decide)
  · intro r hr hre
    rw [after_submit] at hr
    dsimp only at hr
    exact (run_batch_runs_mem backend 0 rs0 h0 r hr).2 hre

/-- **C5**: after submitting a batch of (initially queued, id-less) runs
and observing any sequence of completed prompt ids through the polling
path, the batch status is `complete` exactly when every run's status is
`complete`; and if any run entered `error` during submission, no update
sequence can ever make the batch `complete`. -/
theorem C5_batch_completion (rs0 : List BRun)
    (h0 : ∀ r ∈ rs0, r.status = "queued" ∧ r.promptId = none)
    (hne : rs0 ≠ []) (backend : ℕ → SubmitRes) (us : List String)
    (bid wid : String) (nvar : ℕ) (vs : Bool) :
    ((apply_updates us
        (after_submit backend ⟨bid, wid, nvar, vs, "running", rs0⟩)).status =
        "complete" ↔
      ∀ r ∈ (apply_updates us
        (after_submit backend ⟨bid, wid, nvar, vs, "running", rs0⟩)).runs,
        r.status = "complete") ∧
    ((∃ r ∈ (after_submit backend
        ⟨bid, wid, nvar, vs, "running", rs0⟩).runs, r.status = "error") →
      (apply_updates us
        (after_submit backend ⟨bid, wid, nvar, vs, "running", rs0⟩)).status ≠
        "complete") := by
  have hinv := after_submit_BatchInv backend bid wid nvar vs rs0 h0 hne
  have hfin := apply_updates_BatchInv us hinv
  refine ⟨hfin.1, ?_⟩
  intro he hc
  obtain ⟨r, hr, hre⟩ := apply_updates_error us hinv he
  have hcomp := hfin.1.mp hc r hr
  rw [hcomp] at hre
  exact absurd hre (by decide)

/-- Witness for C5: two queued runs, both submissions succeed, both prompt
ids are observed complete. -/
theorem C5_witness :
    ((apply_updates ["p1", "p2"]
        (after_submit (fun i => if i = 0 then .ok "p1" else .ok "p2")
          ⟨"b", "w", 2, false, "running",
           [⟨1, none, "queued", none, []⟩,
            ⟨2, none, "queued", none, []⟩]⟩)).status = "complete" ↔
      ∀ r ∈ (apply_updates ["p1", "p2"]
        (after_submit (fun i => if i = 0 then .ok "p1" else .ok "p2")
          ⟨"b", "w", 2, false, "running",
           [⟨1, none, "queued", none, []⟩,
            ⟨2, none, "queued", none, []⟩]⟩)).runs,
        r.status = "complete") ∧
    ((∃ r ∈ (after_submit (fun i => if i = 0 then .ok "p1" else .ok "p2")
        ⟨"b", "w", 2, false, "running",
         [⟨1, none, "queued", none, []⟩,
          ⟨2, none, "queued", none, []⟩]⟩).runs, r.status = "error") →
      (apply_updates ["p1", "p2"]
        (after_submit (fun i => if i = 0 then .ok "p1" else .ok "p2")
          ⟨"b", "w", 2, false, "running",
           [⟨1, none, "queued", none, []⟩,
            ⟨2, none, "queued", none, []⟩]⟩)).status ≠ "complete") :=
  C5_batch_completion
    [⟨1, none, "queued", none, []⟩, ⟨2, none, "queued", none, []⟩]
    (by decide) (by decide) (fun i => if i = 0 then .ok "p1" else .ok "p2")
    ["p1", "p2"] "b" "w" 2 false

end Comfyclaw
